import Mathlib

/-!
Verification of `object-locator/utils.py`: adaptive thresholding, mixture
accumulation, density clustering, coordinate unnormalization and the
running-average window.  Arrays are modelled as lists of rows of rationals;
image masks produced by OpenCV are lists of rows of naturals (values 0/255).
External collaborators (the beta-mixture fitter `bmm.estimate`, the sklearn
Gaussian-mixture fitter, the random shuffle) are passed in as explicit
function parameters, so every theorem quantifies over their behaviour.
-/

namespace ObjectLocator

/-- A 2-D real-valued array (confidence map), row major. -/
abbrev Array2 := List (List ℚ)

/-- A 2-D mask as produced by OpenCV routines: entries are 0 or 255. -/
abbrev Mask2 := List (List ℕ)

/-- Flatten a 2-D array row-major, as `numpy.ndarray.flatten` does. -/
def flatten (a : Array2) : List ℚ := a.flatMap id

/-- Model of `cv2.inRange(array, lo, hi)`: an entry becomes 255 when
`lo <= value <= hi` and 0 otherwise (OpenCV uses inclusive bounds and
writes 255 for in-range pixels). -/
def inRange (a : Array2) (lo hi : ℚ) : Mask2 :=
  a.map (fun row => row.map (fun v => if lo ≤ v ∧ v ≤ hi then 255 else 0))

/-- The pure indicator mask the specification text describes: entry 1 when
`lo <= value <= hi`, entry 0 otherwise.  Written from the spec's words, to be
compared with the mask the code actually computes. -/
def indicatorMask (a : Array2) (lo hi : ℚ) : List (List ℕ) :=
  a.map (fun row => row.map (fun v => if lo ≤ v ∧ v ≤ hi then 1 else 0))

/-! ### Normalizer (`utils.py` lines 19-52) -/

/-- Model of `Normalizer.__init__`: stores the target size `[new_size_height,
new_size_width]` (both cast to int). -/
structure Normalizer where
  newSizeH : ℤ
  newSizeW : ℤ

/-- Model of `Normalizer.unnormalize`: asserts `orig_img_size` is a 1-D, 2-element
vector, computes `norm_factor = orig_img_size / self.new_size`, tiles it over
the rows of `coordinates_yx_normalized` and multiplies elementwise.  The
assertion failure is modelled as `none`.  Coordinates are (y, x) pairs. -/
def Normalizer.unnormalize (nz : Normalizer) (coords : List (ℚ × ℚ))
    (origSize : List ℚ) : Option (List (ℚ × ℚ)) :=
  match origSize with
  | [h, w] =>
    let nfY : ℚ := h / (nz.newSizeH : ℚ)
    let nfX : ℚ := w / (nz.newSizeW : ℚ)
    some (coords.map (fun c => (nfY * c.1, nfX * c.2)))
  | _ => none

/-! ### RunningAverage (`utils.py` lines 230-246) -/

/-- State of `RunningAverage`: holds a python list and a capacity `size`. -/
structure RunningAverage where
  list : List ℚ
  size : ℕ
deriving DecidableEq

/-- Model of `RunningAverage.put`: when the list length has reached `size`, first
`pop(0)` (which raises on an empty list, modelled as `none`), then append. -/
def RunningAverage.put (r : RunningAverage) (elem : ℚ) : Option RunningAverage :=
  if r.list.length ≥ r.size then
    match r.list with
    | [] => none
    | _ :: t => some ⟨t ++ [elem], r.size⟩
  else
    some ⟨r.list ++ [elem], r.size⟩

/-- Model of `RunningAverage.avg`, which is `np.average(self.list)`: the arithmetic mean. -/
def RunningAverage.avg (r : RunningAverage) : ℚ :=
  r.list.sum / (r.list.length : ℚ)

/-- Run a sequence of `put` operations from a starting state. -/
def runPuts (r : RunningAverage) : List ℚ → Option RunningAverage
  | [] => some r
  | v :: vs => match r.put v with
    | none => none
    | some r2 => runPuts r2 vs

/-! ### Beta distributions and the mixture accumulator
(`utils.py` lines 100-122) -/

/-- A `scipy.stats.beta(a, b)` frozen random variable is determined by its
two shape parameters. -/
structure BetaRV where
  a : ℚ
  b : ℚ
deriving DecidableEq

/-- Mean of a beta distribution: `scipy.stats.beta(a, b).mean() = a/(a+b)`. -/
def BetaRV.mean (rv : BetaRV) : ℚ := rv.a / (rv.a + rv.b)

/-- One fitted mixture: a list of (random variable, weight) pairs. -/
abbrev Mixture := List (BetaRV × ℚ)

/-- State of `AccBetaMixtureModel`: the configured component count and the
accumulated mixtures (the evaluation grid `x` is fixed by `n_pts` and does
not change across feeds, so it is omitted from the state). -/
structure AccBetaMixtureModel where
  n_components : ℕ
  mixtures : List Mixture

/-- Model of `AccBetaMixtureModel.feed`: asserts `len(mixture) == self.n_components`
(modelled as `none` on failure) and appends the mixture. -/
def AccBetaMixtureModel.feed (acc : AccBetaMixtureModel) (mixture : Mixture) :
    Option AccBetaMixtureModel :=
  if mixture.length = acc.n_components then
    some ⟨acc.n_components, acc.mixtures ++ [mixture]⟩
  else
    none

/-! ### Adaptive thresholding (`utils.py` lines 54-97)

External collaborator `bmm.estimate(array_flat, list(range(2)))` (spec
section 6, "MixtureFitter contract") is a parameter of type `EstimateFn`:
it returns `((a1, b1), (a2, b2)), (pi1, pi2), niter`. -/

/-- Type of the external 2-component beta-mixture fitter `bmm.estimate`:
shape parameters of both components, both mixing weights, iteration count. -/
abbrev EstimateFn := List ℚ → ((ℚ × ℚ) × (ℚ × ℚ)) × (ℚ × ℚ) × ℕ

/-- Minimum of all entries of an array, as `array.min()` (the model returns 0
for an empty array, where numpy raises; theorems only use nonempty arrays). -/
def arrMin (a : Array2) : ℚ :=
  match flatten a with
  | [] => 0
  | v :: vs => vs.foldl min v

/-- Maximum of all entries of an array, as `array.max()` (the model returns 0
for an empty array, where numpy raises; theorems only use nonempty arrays). -/
def arrMax (a : Array2) : ℚ :=
  match flatten a with
  | [] => 0
  | v :: vs => vs.foldl max v

/-- Model of `np.round` on a scalar: round half to even (banker's rounding),
which is numpy's rounding rule. -/
def roundHalfEven (q : ℚ) : ℤ :=
  if q - ⌊q⌋ < 1 / 2 then ⌊q⌋
  else if 1 / 2 < q - ⌊q⌋ then ⌊q⌋ + 1
  else if ⌊q⌋ % 2 = 0 then ⌊q⌋ else ⌊q⌋ + 1

/-- Model of one entry of `((array - minn)/(maxx - minn)*255).round()
.astype(np.uint8)` (source line 77): affine rescale of `[minn, maxx]` onto
`[0, 255]`, rounded, then cast to `uint8` (a C cast, i.e. reduction mod 256;
for `minn <= v <= maxx` the value is already in `[0, 255]`). -/
def scale255 (minn maxx v : ℚ) : ℕ :=
  ((roundHalfEven ((v - minn) / (maxx - minn) * 255)) % 256).toNat

/-- The rescaled 8-bit array the Otsu branch thresholds (source lines 76-78).
The trailing `.squeeze()` only removes singleton axes and changes no element,
so the row structure is kept. -/
def scaledArray (a : Array2) : List (List ℕ) :=
  a.map (fun row => row.map (scale255 (arrMin a) (arrMax a)))

/-- Model of OpenCV's `getThreshVal_Otsu_8u`, the threshold search run by
`cv2.threshold(..., cv2.THRESH_BINARY + cv2.THRESH_OTSU)`: a single pass over
the 256 histogram bins keeping the running class statistics `(mu1, q1)` and
the best inter-class variance seen so far.  OpenCV guards with
`min(q1,q2) < FLT_EPSILON || max(q1,q2) > 1 - FLT_EPSILON`; in exact rational
arithmetic with fewer than `2^23` pixels that guard triggers exactly when one
class is empty, which is how it is modelled here.  As in OpenCV, on a guarded
iteration `mu1` keeps its class-scaled value and ties keep the first
maximizer (strict `sigma > max_sigma`). -/
def otsuStep (s : List ℕ) (st : ℚ × ℚ × ℚ × ℚ) (i : ℕ) : ℚ × ℚ × ℚ × ℚ :=
  let N : ℚ := (s.length : ℚ)
  let mu : ℚ := (s.map (fun v => (v : ℚ))).sum / N
  let mu1 := st.1
  let q1 := st.2.1
  let maxSigma := st.2.2.1
  let maxVal := st.2.2.2
  let p : ℚ := (s.count i : ℚ) / N
  let mu1a := mu1 * q1
  let q1a := q1 + p
  let q2 := 1 - q1a
  if q1a = 0 ∨ q2 = 0 then (mu1a, q1a, maxSigma, maxVal)
  else
    let mu1b := (mu1a + (i : ℚ) * p) / q1a
    let mu2 := (mu - q1a * mu1b) / q2
    let sigma := q1a * q2 * (mu1b - mu2) ^ 2
    if maxSigma < sigma then (mu1b, q1a, sigma, (i : ℚ))
    else (mu1b, q1a, maxSigma, maxVal)

/-- Final value of the Otsu scan: the fourth state component (`max_val`)
after folding `otsuStep` over the 256 histogram bins. -/
def otsuThresh (s : List ℕ) : ℚ :=
  ((List.range 256).foldl (otsuStep s) (0, 0, 0, 0)).2.2.2

/-- Otsu split point of the rescaled 8-bit version of an array. -/
def otsuOfArray (a : Array2) : ℚ := otsuThresh ((scaledArray a).flatMap id)

/-- Result of `threshold`: either `(mask, tau)` or, for `tau == -2`,
`(mask, tau, ((rv1, pi1), (rv2, pi2)))`. -/
inductive ThreshResult where
  | pair (mask : Mask2) (tau : ℚ) : ThreshResult
  | triple (mask : Mask2) (tau : ℚ) (mix : (BetaRV × ℚ) × (BetaRV × ℚ)) : ThreshResult
deriving DecidableEq

/-- Mask component of a `threshold` result. -/
def ThreshResult.maskOf : ThreshResult → Mask2
  | .pair m _ => m
  | .triple m _ _ => m

/-- Threshold component of a `threshold` result. -/
def ThreshResult.tauOf : ThreshResult → ℚ
  | .pair _ t => t
  | .triple _ t _ => t

/-- Model of `threshold(array, tau)` (source lines 54-97), parameterized by
the external fitter `bmm.estimate`.
With `tau == -1`: rescale to 8-bit, run Otsu, build the binary mask directly
from the rescaled array (`cv2.threshold` with `THRESH_BINARY` writes 255
where the 8-bit value strictly exceeds the split), and map the split back to
original units.
With `tau == -2`: flatten, fit two beta components, wrap them as frozen
distributions, take the second component's mean as the threshold and mask
with `cv2.inRange(array, tau, 1)`.
Otherwise: mask with `cv2.inRange(array, tau, 1)` and return `tau` itself. -/
def threshold (estimate : EstimateFn) (array : Array2) (tau : ℚ) : ThreshResult :=
  if tau = -1 then
    let minn := arrMin array
    let maxx := arrMax array
    let scaled := scaledArray array
    let t := otsuThresh (scaled.flatMap id)
    let mask := scaled.map (fun row => row.map (fun (v : ℕ) => if t < (v : ℚ) then 255 else 0))
    .pair mask (minn + (t / 255) * (maxx - minn))
  else if tau = -2 then
    let r := estimate (flatten array)
    let a1 := r.1.1.1
    let b1 := r.1.1.2
    let a2 := r.1.2.1
    let b2 := r.1.2.2
    let pi1 := r.2.1.1
    let pi2 := r.2.1.2
    let rv1 : BetaRV := ⟨a1, b1⟩
    let rv2 : BetaRV := ⟨a2, b2⟩
    let tau2 := rv2.mean
    .triple (inRange array tau2 1) tau2 ((rv1, pi1), (rv2, pi2))
  else
    .pair (inRange array tau 1) tau

/-! ### Density clustering (`utils.py` lines 190-227)

The sklearn Gaussian-mixture fit and the random shuffle are randomized
external collaborators, passed in as parameters `FitFn` and `ShuffleFn`. -/

/-- Type of the external collaborator
`sklearn.mixture.GaussianMixture(...).fit(c).means_`: from the data points
and the component count to the list of fitted (y, x) means. -/
abbrev FitFn := List (ℕ × ℕ) → ℕ → List (ℚ × ℚ)

/-- Type of the random permutation performed by `np.random.shuffle`. -/
abbrev ShuffleFn := List (ℕ × ℕ) → List (ℕ × ℕ)

/-- Scan one mask row at row index `i`, starting at column `j`, collecting
the (row, col) coordinates of entries strictly greater than zero. -/
def fgRowAux (i j : ℕ) : List ℤ → List (ℕ × ℕ)
  | [] => []
  | v :: vs => if 0 < v then (i, j) :: fgRowAux i (j + 1) vs else fgRowAux i (j + 1) vs

/-- Scan the mask rows starting at row index `i`. -/
def fgCoordsAux (i : ℕ) : List (List ℤ) → List (ℕ × ℕ)
  | [] => []
  | row :: rest => fgRowAux i 0 row ++ fgCoordsAux (i + 1) rest

/-- Model of `coord = np.where(array > 0)` followed by the concatenation of
the reshaped `y` and `x` columns (source lines 207-210): the row-major list
of (row, col) coordinates of the strictly positive mask entries. -/
def fgCoords (mask : List (List ℤ)) : List (ℕ × ℕ) := fgCoordsAux 0 mask

/-- Model of `n_components = max(min(n_clusters, x.size), 1)` (source line
221).  Note `x.size` is the number of foreground pixels counted before any
subsampling. -/
def nComponentsFit (mask : List (List ℤ)) (n_clusters : ℕ) : ℕ :=
  max (min n_clusters (fgCoords mask).length) 1

/-- Number of data points actually passed to the Gaussian-mixture fit after
the optional subsampling `n_pts = min(len(c), max_mask_pts); c = c[:n_pts]`
(source lines 215-218); `none` models `max_mask_pts = np.infty`. -/
def nPointsUsed (mask : List (List ℤ)) (maxPts : Option ℕ) : ℕ :=
  match maxPts with
  | none => (fgCoords mask).length
  | some m => min (fgCoords mask).length m

/-- The point list handed to the Gaussian-mixture fit: all foreground
coordinates, or a random subsample of `min(len(c), max_mask_pts)` of them
(source lines 215-218). -/
def usedPoints (shuffle : ShuffleFn) (mask : List (List ℤ)) (maxPts : Option ℕ) :
    List (ℕ × ℕ) :=
  match maxPts with
  | none => fgCoords mask
  | some m => (shuffle (fgCoords mask)).take (min (fgCoords mask).length m)

/-- Truncation toward zero: the effect of numpy's `.astype(np.int)` on a
finite float (source line 225 applies it to the fitted means). -/
def ratTrunc (q : ℚ) : ℤ := if 0 ≤ q then ⌊q⌋ else ⌈q⌉

/-- Rounding to the nearest integer, as the specification's words "the fitted
means rounded" describe; written from the spec, to be compared with what the
code computes. -/
def roundedCentroids (means : List (ℚ × ℚ)) : List (ℤ × ℤ) :=
  means.map (fun p => (round p.1, round p.2))

/-- Model of `cluster(array, n_clusters, max_mask_pts)` (source lines
190-227), parameterized by the random shuffle and the Gaussian-mixture
fitter: collect foreground coordinates; if none, return the empty centroid
list; otherwise optionally subsample, fit with
`max(min(n_clusters, x.size), 1)` components and return the fitted means
cast with `.astype(np.int)`. -/
def cluster (fit : FitFn) (shuffle : ShuffleFn) (mask : List (List ℤ))
    (n_clusters : ℕ) (maxPts : Option ℕ) : List (ℤ × ℤ) :=
  let c := fgCoords mask
  if c.length = 0 then []
  else
    (fit (usedPoints shuffle mask maxPts) (nComponentsFit mask n_clusters)).map
      (fun p => (ratTrunc p.1, ratTrunc p.2))

/-! ### Accumulator statistics (`utils.py` lines 124-148)

The densities `rv.pdf(self.x)` are produced by scipy's frozen beta
distributions; the statistics below are computed pointwise on the grid, so
they are modelled at a single grid point, taking the list of the `N` density
values of one component at that point (in feed order). -/

/-- Model of `np.clip(., a_min=0, a_max=50)` on one density value: clamp
into `[0, 50]`. -/
def clip50 (x : ℚ) : ℚ := min (max x 0) 50

/-- Model of `pdf_means[c]` at one grid point (source lines 134-138): the sum
of `(1/N) * clip(pdf)` over the `N` fed mixtures. -/
def pdfMeanAt (pdfs : List ℚ) : ℚ :=
  (pdfs.map (fun d => (1 / (pdfs.length : ℚ)) * clip50 d)).sum

/-- Model of `pdfs_sq_err_sum[c]` at one grid point (source lines 142-146):
the sum of squared deviations of the clamped densities from `pdf_means[c]`. -/
def sqErrSumAt (pdfs : List ℚ) : ℚ :=
  (pdfs.map (fun d => (clip50 d - pdfMeanAt pdfs) ^ 2)).sum

/-- Model of `pdf_stdevs[c]` at one grid point (source lines 147-148): the
code computes `np.sqrt(pdf_sq_err_sum) / (len(self.mixtures) - 1)`. -/
noncomputable def pdfStdevAt (pdfs : List ℚ) : ℝ :=
  Real.sqrt ((sqErrSumAt pdfs : ℝ)) / ((pdfs.length : ℝ) - 1)

/-- The pointwise sample standard deviation with divisor `N - 1`, i.e.
`sqrt(sum of squared deviations / (N - 1))`, written from the spec's words,
to be compared with `pdfStdevAt`. -/
noncomputable def sampleStdevAt (pdfs : List ℚ) : ℝ :=
  Real.sqrt ((sqErrSumAt pdfs : ℝ) / ((pdfs.length : ℝ) - 1))

/-! ### Concrete collaborator instances used by closed theorems -/

/-- A constant beta-mixture fitter whose output is never consulted by the
fixed and Otsu branches of `threshold`. -/
def estConst : EstimateFn := fun _ => (((1, 1), (1, 1)), (1 / 2, 1 / 2), 0)

/-- A beta-mixture fitter returning components `Beta(1,1)` and `Beta(1,3)`
with equal weights, as the external fitter may on a suitable sample. -/
def estMix : EstimateFn := fun _ => (((1, 1), (1, 3)), (1 / 2, 1 / 2), 5)

/-- A Gaussian-mixture fitter returning the single mean `(8/3, 1/3)`, the
exact maximum-likelihood mean of the three foreground pixels of `maskC6`
fitted with one component. -/
def fitMeanC6 : FitFn := fun _ _ => [(8 / 3, 1 / 3)]

/-- A mask whose foreground pixels are `(2,0)`, `(3,0)` and `(3,1)`; their
centroid is `(8/3, 1/3)`. -/
def maskC6 : List (List ℤ) := [[0, 0], [0, 0], [1, 0], [1, 1]]

/-! ### Helper lemmas -/

/-- Reading a mapped list with `getD` inside the bounds applies the function
to the corresponding entry of the original list (any defaults). -/
theorem map_getD {α β : Type} (f : α → β) (l : List α) (n : ℕ) (hn : n < l.length)
    (d : β) (d0 : α) : (l.map f).getD n d = f (l.getD n d0) := by
  induction l generalizing n with
  | nil => simp at hn
  | cons a l ih =>
    cases n with
    | zero => rfl
    | succ n =>
      simp only [List.map_cons, List.getD_cons_succ]
      exact ih n (by simpa using hn)

/-- Entrywise description of `inRange` inside the bounds. -/
theorem inRange_getD (a : Array2) (lo hi : ℚ) (i j : ℕ) (hi2 : i < a.length)
    (hj : j < (a.getD i []).length) :
    ((inRange a lo hi).getD i []).getD j 0 =
      if lo ≤ (a.getD i []).getD j 0 ∧ (a.getD i []).getD j 0 ≤ hi then 255 else 0 := by
  unfold inRange
  rw [map_getD _ a i hi2 [] []]
  exact map_getD _ (a.getD i []) j hj 0 0

/-- A row with only zero entries contributes no foreground coordinates. -/
theorem fgRowAux_eq_nil (i : ℕ) (row : List ℤ) (h : ∀ v ∈ row, v = 0) :
    ∀ j, fgRowAux i j row = [] := by
  induction row with
  | nil => intro j; rfl
  | cons v vs ih =>
    intro j
    have hv : v = 0 := h v (by simp)
    have hrest : ∀ w ∈ vs, w = 0 := fun w hw => h w (by simp [hw])
    simp only [fgRowAux, hv, lt_irrefl, if_false]
    exact ih hrest (j + 1)

/-- A mask with only zero entries has no foreground coordinates. -/
theorem fgCoordsAux_eq_nil (mask : List (List ℤ))
    (h : ∀ row ∈ mask, ∀ v ∈ row, v = 0) : ∀ i, fgCoordsAux i mask = [] := by
  induction mask with
  | nil => intro i; rfl
  | cons row rest ih =>
    intro i
    have hrow : ∀ v ∈ row, v = 0 := h row (by simp)
    have hrest : ∀ r ∈ rest, ∀ v ∈ r, v = 0 := fun r hr => h r (by simp [hr])
    simp only [fgCoordsAux, fgRowAux_eq_nil i row hrow 0, List.nil_append]
    exact ih hrest (i + 1)

/-- After any sequence of `put` operations starting from a list that fits the
capacity, the window holds exactly the trailing `size` elements of the
concatenation, in order. -/
theorem runPuts_drop (size : ℕ) (hs : 0 < size) (vs : List ℚ) :
    ∀ l : List ℚ, l.length ≤ size →
      runPuts ⟨l, size⟩ vs = some ⟨(l ++ vs).drop ((l ++ vs).length - size), size⟩ := by
  induction vs with
  | nil =>
    intro l hl
    have h0 : l.length - size = 0 := by omega
    simp [runPuts, h0]
  | cons v vs ih =>
    intro l hl
    by_cases hc : size ≤ l.length
    · have hlen : l.length = size := le_antisymm hl hc
      match l, hlen with
      | (a :: t), hlen =>
        have hlen2 : t.length + 1 = size := by simpa using hlen
        have hput : RunningAverage.put ⟨a :: t, size⟩ v = some ⟨t ++ [v], size⟩ := by
          simp only [RunningAverage.put]
          rw [if_pos (by simp only [List.length_cons]; omega : (a :: t).length ≥ size)]
        have ht : (t ++ [v]).length ≤ size := by
          simp only [List.length_append, List.length_cons, List.length_nil]
          omega
        have hih := ih (t ++ [v]) ht
        simp only [runPuts, hput]
        rw [hih]
        have hdrop : List.drop ((t ++ [v] ++ vs).length - size) (t ++ [v] ++ vs) =
            List.drop (((a :: t) ++ v :: vs).length - size) ((a :: t) ++ v :: vs) := by
          have h1 : t ++ [v] ++ vs = t ++ v :: vs := by simp
          have h2 : (a :: t) ++ v :: vs = a :: (t ++ v :: vs) := by simp
          rw [h1, h2]
          have h3 : (a :: (t ++ v :: vs)).length - size = ((t ++ v :: vs).length - size) + 1 := by
            simp only [List.length_cons, List.length_append]
            omega
          rw [h3, List.drop_succ_cons]
        rw [hdrop]
      | [], hlen => exact absurd hlen.symm (by simpa using hs.ne.symm)
    · push_neg at hc
      have hput : RunningAverage.put ⟨l, size⟩ v = some ⟨l ++ [v], size⟩ := by
        simp [RunningAverage.put, not_le.mpr hc]
      have hlv : (l ++ [v]).length ≤ size := by
        simp only [List.length_append, List.length_cons, List.length_nil]
        omega
      have hih := ih (l ++ [v]) hlv
      simp only [runPuts, hput]
      rw [hih]
      have hlist : (l ++ [v]) ++ vs = l ++ v :: vs := by simp
      rw [hlist]

/-! ### Claim theorems -/

/-- C7: for every 2-D mask containing no nonzero (foreground) element and
every `n_clusters` and `max_points` — and any behaviour of the randomized
shuffle and Gaussian-mixture fitter — `cluster` returns an empty centroid
set. -/
theorem cluster_empty_mask (fit : FitFn) (shuffle : ShuffleFn)
    (mask : List (List ℤ)) (n_clusters : ℕ) (maxPts : Option ℕ)
    (hz : ∀ row ∈ mask, ∀ v ∈ row, v = 0) :
    cluster fit shuffle mask n_clusters maxPts = [] := by
  have hnil : fgCoords mask = [] := fgCoordsAux_eq_nil mask hz 0
  simp [cluster, hnil]

/-- Witness for C7: `cluster` on the all-zero 2-by-2 mask returns no
centroids. -/
theorem cluster_empty_mask_witness :
    cluster (fun _ _ => [(0, 0)]) id [[0, 0], [0, 0]] 4 (some 2) = [] :=
  cluster_empty_mask (fun _ _ => [(0, 0)]) id [[0, 0], [0, 0]] 4 (some 2) (by decide)

/-- C8: for every window capacity `size > 0` and every sequence of `put`
operations starting from the fresh window, the held elements afterwards are
exactly the at-most-`size` most recently inserted values in insertion order
and the length never exceeds `size`; with `size = 3`, after
`put(1); put(2); put(3); put(4)` the held elements are exactly `[2, 3, 4]`
and `avg == 3`. -/
theorem runningAverage_fifo (size : ℕ) (hs : 0 < size) (vs : List ℚ) :
    (runPuts ⟨[], size⟩ vs = some ⟨vs.drop (vs.length - size), size⟩ ∧
      (vs.drop (vs.length - size)).length ≤ size) ∧
    (runPuts ⟨[], 3⟩ [1, 2, 3, 4] = some ⟨[2, 3, 4], 3⟩ ∧
      RunningAverage.avg ⟨[2, 3, 4], 3⟩ = 3) := by
  refine ⟨⟨?_, ?_⟩, by norm_num [runPuts, RunningAverage.put],
    by norm_num [RunningAverage.avg]⟩
  · simpa using runPuts_drop size hs vs [] (by simp)
  · simp only [List.length_drop]
    omega

/-- Witness for C8: the theorem applied at capacity 3 and the insertion
sequence `1, 2, 3, 4`. -/
theorem runningAverage_fifo_witness :
    runPuts ⟨[], 3⟩ [1, 2, 3, 4] =
      some ⟨([1, 2, 3, 4] : List ℚ).drop (([1, 2, 3, 4] : List ℚ).length - 3), 3⟩ ∧
    RunningAverage.avg ⟨[2, 3, 4], 3⟩ = 3 :=
  ⟨(runningAverage_fifo 3 (by decide) [1, 2, 3, 4]).1.1,
    (runningAverage_fifo 3 (by decide) [1, 2, 3, 4]).2.2⟩

/-- C9: `unnormalize` fails exactly when `orig_size` is not a 2-element
vector, multiplies every coordinate row elementwise by the per-axis ratio
`orig_size / target_size`, and `Normalizer(100,100).unnormalize([[50,50]],
[200,100])` returns `[[100,50]]`. -/
theorem normalizer_unnormalize_spec (H W : ℤ) (coords : List (ℚ × ℚ))
    (origSize : List ℚ) :
    ((Normalizer.unnormalize ⟨H, W⟩ coords origSize = none ↔ origSize.length ≠ 2) ∧
      ∀ h w : ℚ, origSize = [h, w] →
        Normalizer.unnormalize ⟨H, W⟩ coords origSize =
          some (coords.map (fun c => ((h / (H : ℚ)) * c.1, (w / (W : ℚ)) * c.2)))) ∧
    Normalizer.unnormalize ⟨100, 100⟩ [(50, 50)] [200, 100] = some [(100, 50)] := by
  refine ⟨⟨?_, ?_⟩, by norm_num [Normalizer.unnormalize]⟩
  · match origSize with
    | [] => simp [Normalizer.unnormalize]
    | [a] => simp [Normalizer.unnormalize]
    | [a, b] => simp [Normalizer.unnormalize]
    | a :: b :: c :: rest => simp [Normalizer.unnormalize]
  · intro h w heq
    subst heq
    rfl

/-- Witness for C9: the theorem applied to the spec's concrete example, the
ratio form of the result, and a failing 1-element `orig_size`. -/
theorem normalizer_unnormalize_spec_witness :
    Normalizer.unnormalize ⟨100, 100⟩ [(50, 50)] [200, 100] =
      some ([((50 : ℚ), (50 : ℚ))].map
        (fun c => (((200 : ℚ) / (100 : ℚ)) * c.1, ((100 : ℚ) / (100 : ℚ)) * c.2))) ∧
    Normalizer.unnormalize ⟨100, 100⟩ [(50, 50)] [200] = none :=
  ⟨(normalizer_unnormalize_spec 100 100 [(50, 50)] [200, 100]).1.2 200 100 rfl,
    (normalizer_unnormalize_spec 100 100 [(50, 50)] [200]).1.1.mpr (by decide)⟩

/-- C10: `feed` fails exactly when the fed mixture's length differs from
`n_components`, and otherwise appends that one mixture, leaving every
previously accumulated mixture (and the component count) unchanged. -/
theorem accBMM_feed_spec (acc : AccBetaMixtureModel) (mixture : Mixture) :
    (acc.feed mixture = none ↔ mixture.length ≠ acc.n_components) ∧
    (mixture.length = acc.n_components →
      acc.feed mixture = some ⟨acc.n_components, acc.mixtures ++ [mixture]⟩) := by
  constructor
  · constructor
    · intro hnone hlen
      simp [AccBetaMixtureModel.feed, hlen] at hnone
    · intro hlen
      simp [AccBetaMixtureModel.feed, hlen]
  · intro hlen
    simp [AccBetaMixtureModel.feed, hlen]

/-- Witness for C10: feeding a 2-component mixture into a fresh 2-component
accumulator appends it, and feeding a 1-component mixture fails. -/
theorem accBMM_feed_spec_witness :
    AccBetaMixtureModel.feed ⟨2, []⟩ [(⟨1, 1⟩, 1 / 2), (⟨1, 3⟩, 1 / 2)] =
      some ⟨2, [] ++ [[(⟨1, 1⟩, 1 / 2), (⟨1, 3⟩, 1 / 2)]]⟩ ∧
    AccBetaMixtureModel.feed ⟨2, []⟩ [(⟨1, 1⟩, 1)] = none :=
  ⟨(accBMM_feed_spec ⟨2, []⟩ [(⟨1, 1⟩, 1 / 2), (⟨1, 3⟩, 1 / 2)]).2 (by decide),
    (accBMM_feed_spec ⟨2, []⟩ [(⟨1, 1⟩, 1)]).1.mpr (by decide)⟩

/-- C1 (amended): for every array and every non-sentinel threshold `tau`
(`tau` distinct from the policy selectors -1 and -2), `threshold` returns the
pair `(cv2.inRange(array, tau, 1), tau)`, whose mask entry is 255 — not 1 —
exactly when `tau <= value <= 1`, and the returned threshold equals `tau`. -/
theorem threshold_fixed_spec (est : EstimateFn) (array : Array2) (tau : ℚ)
    (h1 : tau ≠ -1) (h2 : tau ≠ -2) :
    threshold est array tau = .pair (inRange array tau 1) tau ∧
    (threshold est array tau).tauOf = tau ∧
    ∀ i j, i < array.length → j < (array.getD i []).length →
      (((threshold est array tau).maskOf.getD i []).getD j 0 = 255 ↔
        (tau ≤ (array.getD i []).getD j 0 ∧ (array.getD i []).getD j 0 ≤ 1)) := by
  have hthr : threshold est array tau = .pair (inRange array tau 1) tau := by
    simp [threshold, h1, h2]
  refine ⟨hthr, by rw [hthr]; rfl, ?_⟩
  intro i j hi2 hj
  rw [hthr]
  show ((inRange array tau 1).getD i []).getD j 0 = 255 ↔ _
  rw [inRange_getD array tau 1 i j hi2 hj]
  constructor
  · intro h255
    by_contra hcon
    rw [if_neg hcon] at h255
    exact absurd h255 (by norm_num)
  · intro hc
    rw [if_pos hc]

/-- Witness for C1: the fixed policy at `tau = 3/10` on the array `[[1/2]]`,
with the elementwise description instantiated at entry (0, 0). -/
theorem threshold_fixed_spec_witness :
    threshold estConst [[(1 : ℚ)/2]] (3/10) =
      .pair (inRange [[(1 : ℚ)/2]] (3/10) 1) (3/10) ∧
    (((threshold estConst [[(1 : ℚ)/2]] (3/10)).maskOf.getD 0 []).getD 0 0 = 255 ↔
      ((3/10 : ℚ) ≤ ([[(1 : ℚ)/2]].getD 0 []).getD 0 0 ∧
        ([[(1 : ℚ)/2]].getD 0 []).getD 0 0 ≤ 1)) := by
  have h := threshold_fixed_spec estConst [[(1 : ℚ)/2]] (3/10)
    (by norm_num) (by norm_num)
  exact ⟨h.1, h.2.2 0 0 (by norm_num) (by norm_num)⟩

/-- Counterexample for C1 as stated: on the array `[[1/2]]` with fixed
threshold `3/10` the value `1/2` lies in `[3/10, 1]`, yet the mask entry is
255, not 1 — `cv2.inRange` writes 255 for in-range pixels, so the returned
mask differs from the 0/1 indicator the claim describes. -/
theorem threshold_fixed_mask_not_one :
    (threshold estConst [[(1 : ℚ)/2]] (3/10)).maskOf = [[255]] ∧
    indicatorMask [[(1 : ℚ)/2]] (3/10) 1 = [[1]] ∧
    ((3/10 : ℚ) ≤ 1/2 ∧ ((1 : ℚ)/2) ≤ 1) ∧
    (threshold estConst [[(1 : ℚ)/2]] (3/10)).maskOf ≠
      indicatorMask [[(1 : ℚ)/2]] (3/10) 1 := by
  have hm : (threshold estConst [[(1 : ℚ)/2]] (3/10)).maskOf = [[255]] := by
    norm_num [threshold, inRange, ThreshResult.maskOf]
  have hi : indicatorMask [[(1 : ℚ)/2]] (3/10) 1 = [[1]] := by
    norm_num [indicatorMask]
  refine ⟨hm, hi, ⟨by norm_num, by norm_num⟩, ?_⟩
  rw [hm, hi]
  simp

/-- C2 (amended): for every array and every behaviour of the external fitter,
`threshold(array, -2)` fits on the flattened array, returns the triple whose
threshold is the mean of the second (higher-index) fitted component —
selected by index, the components kept in estimation order — and whose mask
entry is 255 (not 1) exactly when the value lies in `[tau, 1]`. -/
theorem threshold_mixture_spec (est : EstimateFn) (array : Array2)
    (a1 b1 a2 b2 pi1 pi2 : ℚ) (niter : ℕ)
    (hest : est (flatten array) = (((a1, b1), (a2, b2)), (pi1, pi2), niter)) :
    threshold est array (-2) =
      .triple (inRange array (BetaRV.mean ⟨a2, b2⟩) 1) (BetaRV.mean ⟨a2, b2⟩)
        ((⟨a1, b1⟩, pi1), (⟨a2, b2⟩, pi2)) ∧
    BetaRV.mean ⟨a2, b2⟩ = a2 / (a2 + b2) ∧
    ∀ i j, i < array.length → j < (array.getD i []).length →
      (((threshold est array (-2)).maskOf.getD i []).getD j 0 = 255 ↔
        (BetaRV.mean ⟨a2, b2⟩ ≤ (array.getD i []).getD j 0 ∧
          (array.getD i []).getD j 0 ≤ 1)) := by
  have hthr : threshold est array (-2) =
      .triple (inRange array (BetaRV.mean ⟨a2, b2⟩) 1) (BetaRV.mean ⟨a2, b2⟩)
        ((⟨a1, b1⟩, pi1), (⟨a2, b2⟩, pi2)) := by
    simp only [threshold, hest]
    norm_num
  refine ⟨hthr, rfl, ?_⟩
  intro i j hi2 hj
  rw [hthr]
  show ((inRange array (BetaRV.mean ⟨a2, b2⟩) 1).getD i []).getD j 0 = 255 ↔ _
  rw [inRange_getD array (BetaRV.mean ⟨a2, b2⟩) 1 i j hi2 hj]
  constructor
  · intro h255
    by_contra hcon
    rw [if_neg hcon] at h255
    exact absurd h255 (by norm_num)
  · intro hc
    rw [if_pos hc]

/-- Witness for C2: the fitter returning `Beta(1,1)` and `Beta(1,3)` with
equal weights on `[[1/2]]`: the result is the triple with threshold
`mean(Beta(1,3)) = 1/4` and the components in estimation order. -/
theorem threshold_mixture_spec_witness :
    threshold estMix [[(1 : ℚ)/2]] (-2) =
      .triple (inRange [[(1 : ℚ)/2]] (BetaRV.mean ⟨1, 3⟩) 1) (BetaRV.mean ⟨1, 3⟩)
        ((⟨1, 1⟩, 1/2), (⟨1, 3⟩, 1/2)) ∧
    BetaRV.mean ⟨1, 3⟩ = 1 / (1 + 3) := by
  have h := threshold_mixture_spec estMix [[(1 : ℚ)/2]] 1 1 1 3 (1/2) (1/2) 5 rfl
  exact ⟨h.1, h.2.1⟩

/-- Counterexample for C2 as stated: with the fitter returning `Beta(1,1)`
and `Beta(1,3)`, thresholding `[[1/2]]` with `tau = -2` gives threshold
`1/4` and mask `[[255]]`, which is not the 0/1 indicator of
`1/4 <= value <= 1` that the claim describes (that indicator is `[[1]]`). -/
theorem threshold_mixture_mask_not_indicator :
    (threshold estMix [[(1 : ℚ)/2]] (-2)).tauOf = 1/4 ∧
    (threshold estMix [[(1 : ℚ)/2]] (-2)).maskOf = [[255]] ∧
    indicatorMask [[(1 : ℚ)/2]] (1/4) 1 = [[1]] ∧
    (threshold estMix [[(1 : ℚ)/2]] (-2)).maskOf ≠
      indicatorMask [[(1 : ℚ)/2]] ((threshold estMix [[(1 : ℚ)/2]] (-2)).tauOf) 1 := by
  have htau : (threshold estMix [[(1 : ℚ)/2]] (-2)).tauOf = 1/4 := by
    norm_num [threshold, BetaRV.mean, ThreshResult.tauOf, estMix]
  have hm : (threshold estMix [[(1 : ℚ)/2]] (-2)).maskOf = [[255]] := by
    norm_num [threshold, BetaRV.mean, inRange, ThreshResult.maskOf, estMix]
  have hi : indicatorMask [[(1 : ℚ)/2]] (1/4) 1 = [[1]] := by
    norm_num [indicatorMask]
  refine ⟨htau, hm, hi, ?_⟩
  rw [htau, hm, hi]
  simp

/-- C3: the component-count cap is computed from the foreground-pixel count
taken before subsampling (`x.size`), so with 3 foreground pixels,
`n_clusters = 2` and `max_mask_pts = 1` the code fits a 2-component
Gaussian mixture on a single subsampled data point: the number of fitted
components exceeds the number of points actually used, contradicting the
code's own comment that a GMM cannot be fitted with `n_components >
n_samples` (sklearn raises there). -/
theorem cluster_cap_exceeds_points :
    nComponentsFit [[1, 1, 1]] 2 = 2 ∧
    nPointsUsed [[1, 1, 1]] (some 1) = 1 ∧
    (usedPoints id [[1, 1, 1]] (some 1)).length = 1 ∧
    ¬(nComponentsFit [[1, 1, 1]] 2 ≤ nPointsUsed [[1, 1, 1]] (some 1)) := by
  refine ⟨?_, ?_, ?_, ?_⟩ <;> decide

/-- C6 (amended): for every mask with at least one foreground pixel and any
behaviour of the randomized collaborators, the centroid set returned by
`cluster` consists of the fitted Gaussian-component means truncated toward
zero (`astype(np.int)`), not rounded to the nearest integer, one (y, x) row
per fitted component; `ratTrunc` is characterized as the integer between the
value and zero that is within distance 1 of it. -/
theorem cluster_centroids_truncated (fit : FitFn) (shuffle : ShuffleFn)
    (mask : List (List ℤ)) (n_clusters : ℕ) (maxPts : Option ℕ)
    (hne : (fgCoords mask).length ≠ 0) :
    cluster fit shuffle mask n_clusters maxPts =
      (fit (usedPoints shuffle mask maxPts) (nComponentsFit mask n_clusters)).map
        (fun p => (ratTrunc p.1, ratTrunc p.2)) ∧
    (cluster fit shuffle mask n_clusters maxPts).length =
      (fit (usedPoints shuffle mask maxPts) (nComponentsFit mask n_clusters)).length ∧
    ∀ q : ℚ, (0 ≤ q → ((ratTrunc q : ℚ) ≤ q ∧ q < (ratTrunc q : ℚ) + 1)) ∧
      (q < 0 → (q ≤ (ratTrunc q : ℚ) ∧ (ratTrunc q : ℚ) - 1 < q)) := by
  have hcl : cluster fit shuffle mask n_clusters maxPts =
      (fit (usedPoints shuffle mask maxPts) (nComponentsFit mask n_clusters)).map
        (fun p => (ratTrunc p.1, ratTrunc p.2)) := by
    simp [cluster, hne]
  refine ⟨hcl, by rw [hcl, List.length_map], ?_⟩
  intro q
  constructor
  · intro hq
    rw [ratTrunc, if_pos hq]
    exact ⟨Int.floor_le q, Int.lt_floor_add_one q⟩
  · intro hq
    rw [ratTrunc, if_neg (not_le.mpr hq)]
    refine ⟨Int.le_ceil q, ?_⟩
    have := Int.ceil_lt_add_one q
    linarith

/-- Witness for C6: the concrete mask with foreground pixels (2,0), (3,0),
(3,1), one requested cluster and no subsampling, plus the truncation bounds
at the fitted mean coordinate `8/3`. -/
theorem cluster_centroids_truncated_witness :
    cluster fitMeanC6 id maskC6 1 none =
      (fitMeanC6 (usedPoints id maskC6 none) (nComponentsFit maskC6 1)).map
        (fun p => (ratTrunc p.1, ratTrunc p.2)) ∧
    ((ratTrunc ((8 : ℚ)/3) : ℚ) ≤ (8 : ℚ)/3 ∧ (8 : ℚ)/3 < (ratTrunc ((8 : ℚ)/3) : ℚ) + 1) := by
  have h := cluster_centroids_truncated fitMeanC6 id maskC6 1 none (by decide)
  exact ⟨h.1, (h.2.2 ((8 : ℚ)/3)).1 (by norm_num)⟩

/-- Counterexample for C6 as stated: on `maskC6` with one requested cluster,
the fitter returns the exact mean `(8/3, 1/3)` of the three foreground
pixels, and `cluster` returns `[(2, 0)]` (truncation via `astype(np.int)`),
while the means rounded to the nearest integer would be `[(3, 0)]`. -/
theorem cluster_centroids_not_rounded :
    cluster fitMeanC6 id maskC6 1 none = [(2, 0)] ∧
    roundedCentroids (fitMeanC6 (usedPoints id maskC6 none) (nComponentsFit maskC6 1)) =
      [(3, 0)] ∧
    cluster fitMeanC6 id maskC6 1 none ≠
      roundedCentroids (fitMeanC6 (usedPoints id maskC6 none) (nComponentsFit maskC6 1)) := by
  have hr1 : round ((8 : ℚ)/3) = 3 := by
    rw [round_eq]
    norm_num
  have hr2 : round ((1 : ℚ)/3) = 0 := by
    rw [round_eq]
    norm_num
  have hfg : ¬(fgCoords maskC6).length = 0 := by decide
  have hcl : cluster fitMeanC6 id maskC6 1 none = [(2, 0)] := by
    simp only [cluster, if_neg hfg, fitMeanC6, List.map_cons, List.map_nil, ratTrunc]
    norm_num
  have hrc : roundedCentroids
      (fitMeanC6 (usedPoints id maskC6 none) (nComponentsFit maskC6 1)) = [(3, 0)] := by
    simp only [roundedCentroids, fitMeanC6, List.map_cons, List.map_nil, hr1, hr2]
  refine ⟨hcl, hrc, ?_⟩
  rw [hcl, hrc]
  simp

/-- Folding a function over a list whose every element fixes the state
leaves the state unchanged. -/
theorem foldl_fixed {α β : Type} (f : α → β → α) (st : α) (l : List β)
    (h : ∀ b ∈ l, f st b = st) : l.foldl f st = st := by
  induction l with
  | nil => rfl
  | cons b bs ih =>
    rw [List.foldl_cons, h b (List.mem_cons_self b bs)]
    exact ih (fun x hx => h x (List.mem_cons_of_mem b hx))

/-- Otsu scan on the two-pixel histogram `[0, 255]`: bin 0 splits the two
pixels and records inter-class variance `(1/2)(1/2)(0-255)^2 = 65025/4`. -/
theorem otsuStep_ce_first :
    otsuStep [0, 255] (0, 0, 0, 0) 0 = (0, 1/2, 65025/4, 0) := by
  have hc : List.count 0 [0, 255] = 1 := by decide
  norm_num [otsuStep, hc]

/-- Otsu scan on `[0, 255]`: every empty bin strictly between the two values
recomputes the same variance and, by the strict-improvement test, keeps the
first maximizer. -/
theorem otsuStep_ce_mid (i : ℕ) (h0 : i ≠ 0) (h255 : i ≠ 255) :
    otsuStep [0, 255] (0, 1/2, 65025/4, 0) i = (0, 1/2, 65025/4, 0) := by
  have hc : List.count i [0, 255] = 0 := by
    rw [List.count_eq_zero]
    simp [h0, h255]
  norm_num [otsuStep, hc]

/-- Otsu scan on `[0, 255]`: the last bin empties the second class, so the
OpenCV epsilon guard skips it. -/
theorem otsuStep_ce_last :
    otsuStep [0, 255] (0, 1/2, 65025/4, 0) 255 = (0, 1, 65025/4, 0) := by
  have hc : List.count 255 [0, 255] = 1 := by decide
  norm_num [otsuStep, hc]

set_option maxRecDepth 4000 in
/-- The Otsu split of the two-pixel 8-bit image `[0, 255]` is 0: the first
bin already maximizes the inter-class variance and ties keep the first
maximizer. -/
theorem otsuThresh_ce : otsuThresh [0, 255] = 0 := by
  have hr : List.range 256 = 0 :: (List.range' 1 254 ++ [255]) := by decide
  have hmid : ∀ b ∈ List.range' 1 254,
      otsuStep [0, 255] (0, 1/2, 65025/4, 0) b = (0, 1/2, 65025/4, 0) := by
    intro b hb
    have hb2 := List.mem_range'_1.mp hb
    exact otsuStep_ce_mid b (by omega) (by omega)
  unfold otsuThresh
  rw [hr, List.foldl_cons, otsuStep_ce_first, List.foldl_append,
    foldl_fixed (otsuStep [0, 255]) (0, 1/2, 65025/4, 0) (List.range' 1 254) hmid,
    List.foldl_cons, otsuStep_ce_last, List.foldl_nil]

/-- Minimum of the counterexample array `[[0, 2]]`. -/
theorem arrMin_ce : arrMin [[(0 : ℚ), 2]] = 0 := by decide

/-- Maximum of the counterexample array `[[0, 2]]`. -/
theorem arrMax_ce : arrMax [[(0 : ℚ), 2]] = 2 := by decide

/-- Rescaling `[[0, 2]]` onto 8 bits yields `[[0, 255]]`. -/
theorem scaledArray_ce : scaledArray [[(0 : ℚ), 2]] = [[0, 255]] := by
  have hs0 : scale255 0 2 (0 : ℚ) = 0 := by
    norm_num [scale255, roundHalfEven]
  have hs2 : scale255 0 2 (2 : ℚ) = 255 := by
    norm_num [scale255, roundHalfEven]
    rfl
  simp [scaledArray, arrMin_ce, arrMax_ce, hs0, hs2]

/-- The Otsu split of the counterexample array is 0. -/
theorem otsuOfArray_ce : otsuOfArray [[(0 : ℚ), 2]] = 0 := by
  rw [otsuOfArray, scaledArray_ce]
  exact otsuThresh_ce

/-- Unfolding of the Otsu branch of `threshold`: the returned mask is the
`THRESH_BINARY` mask of the rescaled 8-bit array at the Otsu split (strict
comparison), and the returned threshold is the split mapped back to original
units. -/
theorem threshold_otsu_eq (est : EstimateFn) (array : Array2) :
    threshold est array (-1) =
      .pair ((scaledArray array).map (fun row => row.map
          (fun (v : ℕ) => if otsuOfArray array < (v : ℚ) then 255 else 0)))
        (arrMin array + (otsuOfArray array / 255) * (arrMax array - arrMin array)) := by
  simp only [threshold]
  norm_num [otsuOfArray]

/-- C4 (amended): for every array, `threshold(array, -1)` rescales the array
onto `[0, 255]` with rounding, computes the Otsu split over that range and
maps it back to original units as the returned threshold; the returned mask,
however, is the `THRESH_BINARY` mask of the rescaled 8-bit array — an entry
is 255 exactly when its rounded rescaled value strictly exceeds the split —
which need not coincide with the Fixed-policy mask at the mapped-back
threshold (strict versus inclusive comparison, rounding, and no upper bound
at 1). -/
theorem threshold_otsu_spec (est : EstimateFn) (array : Array2) :
    (threshold est array (-1)).tauOf =
      arrMin array + (otsuOfArray array / 255) * (arrMax array - arrMin array) ∧
    ∀ i j, i < array.length → j < (array.getD i []).length →
      (((threshold est array (-1)).maskOf.getD i []).getD j 0 = 255 ↔
        otsuOfArray array <
          (scale255 (arrMin array) (arrMax array) ((array.getD i []).getD j 0) : ℚ)) := by
  have hthr := threshold_otsu_eq est array
  refine ⟨by rw [hthr]; rfl, ?_⟩
  intro i j hi2 hj
  rw [hthr]
  show (((scaledArray array).map _).getD i []).getD j 0 = 255 ↔ _
  have hlen1 : i < (scaledArray array).length := by
    simpa [scaledArray] using hi2
  rw [map_getD _ (scaledArray array) i hlen1 [] []]
  have hrow : (scaledArray array).getD i [] =
      (array.getD i []).map (scale255 (arrMin array) (arrMax array)) := by
    unfold scaledArray
    exact map_getD _ array i hi2 [] []
  have hlen2 : j < ((scaledArray array).getD i []).length := by
    rw [hrow]
    simpa using hj
  rw [map_getD _ _ j hlen2 0 0, hrow, map_getD _ _ j hj 0 0]
  constructor
  · intro h255
    by_contra hcon
    rw [if_neg hcon] at h255
    exact absurd h255 (by norm_num)
  · intro hc
    rw [if_pos hc]

/-- Witness for C4: the theorem applied to the array `[[0, 2]]`, with the
elementwise description instantiated at entry (0, 1). -/
theorem threshold_otsu_spec_witness :
    (threshold estConst [[(0 : ℚ), 2]] (-1)).tauOf =
      arrMin [[(0 : ℚ), 2]] + (otsuOfArray [[(0 : ℚ), 2]] / 255) *
        (arrMax [[(0 : ℚ), 2]] - arrMin [[(0 : ℚ), 2]]) ∧
    (((threshold estConst [[(0 : ℚ), 2]] (-1)).maskOf.getD 0 []).getD 1 0 = 255 ↔
      otsuOfArray [[(0 : ℚ), 2]] <
        (scale255 (arrMin [[(0 : ℚ), 2]]) (arrMax [[(0 : ℚ), 2]])
          (([[(0 : ℚ), 2]].getD 0 []).getD 1 0) : ℚ)) := by
  have h := threshold_otsu_spec estConst [[(0 : ℚ), 2]]
  exact ⟨h.1, h.2 0 1 (by norm_num) (by norm_num)⟩

/-- Counterexample for C4 as stated: on `[[0, 2]]` the Otsu branch rescales
to `[[0, 255]]`, picks split 0, maps it back to threshold 0, and returns the
mask `[[0, 255]]` (strict comparison on the rescaled values, no upper
bound); the Fixed policy at the mapped-back threshold 0 would mask values in
`[0, 1]` and produce `[[255, 0]]` — the two masks disagree at both pixels. -/
theorem threshold_otsu_mask_ne_fixed :
    (threshold estConst [[(0 : ℚ), 2]] (-1)).maskOf = [[0, 255]] ∧
    (threshold estConst [[(0 : ℚ), 2]] (-1)).tauOf = 0 ∧
    inRange [[(0 : ℚ), 2]] 0 1 = [[255, 0]] ∧
    (threshold estConst [[(0 : ℚ), 2]] (-1)).maskOf ≠
      inRange [[(0 : ℚ), 2]] ((threshold estConst [[(0 : ℚ), 2]] (-1)).tauOf) 1 := by
  have hthr : threshold estConst [[(0 : ℚ), 2]] (-1) = .pair [[0, 255]] 0 := by
    rw [threshold_otsu_eq, scaledArray_ce, otsuOfArray_ce, arrMin_ce, arrMax_ce]
    norm_num
  have hin : inRange [[(0 : ℚ), 2]] 0 1 = [[255, 0]] := by
    norm_num [inRange]
  refine ⟨by rw [hthr]; rfl, by rw [hthr]; rfl, hin, ?_⟩
  rw [hthr]
  show [[0, 255]] ≠ inRange [[(0 : ℚ), 2]] 0 1
  rw [hin]
  simp

/-- C5: the summarizing operation's per-component spread statistic is not
the sample standard deviation with divisor `N - 1`: the code computes
`sqrt(sum of squared deviations) / (N - 1)` instead of
`sqrt(sum of squared deviations / (N - 1))`.  With `N = 3` mixtures whose
clamped densities at a grid point are 0, 1 and 2 (mean 1, squared-error sum
2), the code yields `sqrt(2)/2` while the sample standard deviation is 1 —
the two agree only when `N = 2` or the deviations vanish. -/
theorem acc_stdev_formula_mismatch :
    sqErrSumAt [0, 1, 2] = 2 ∧
    pdfStdevAt [0, 1, 2] = Real.sqrt 2 / 2 ∧
    sampleStdevAt [0, 1, 2] = 1 ∧
    pdfStdevAt [0, 1, 2] ≠ sampleStdevAt [0, 1, 2] := by
  have hsq : sqErrSumAt ([0, 1, 2] : List ℚ) = 2 := by
    norm_num [sqErrSumAt, pdfMeanAt, clip50, min_def, max_def]
  have h1 : pdfStdevAt [0, 1, 2] = Real.sqrt 2 / 2 := by
    unfold pdfStdevAt
    rw [hsq]
    norm_num
  have h2 : sampleStdevAt [0, 1, 2] = 1 := by
    unfold sampleStdevAt
    rw [hsq]
    have hx : ((2 : ℚ) : ℝ) / ((([0, 1, 2] : List ℚ).length : ℝ) - 1) = 1 := by
      norm_num
    rw [hx, Real.sqrt_one]
  refine ⟨hsq, h1, h2, ?_⟩
  rw [h1, h2]
  intro heq
  have hs2 : Real.sqrt 2 = 2 := by linarith
  have hsq2 := Real.sq_sqrt (show (0 : ℝ) ≤ 2 by norm_num)
  rw [hs2] at hsq2
  norm_num at hsq2

end ObjectLocator
